import Mathlib

/-!
Shallow embedding of `mbtiles_s3_server.py`: the tile / style / font HTTP
handlers and the `normalise_environment` configuration decoder, together with
theorems checking the natural-language specification against this embedding.

Modelling conventions:
- Python strings are Lean `String` (a packed `List Char`); byte strings are
  `List Nat`.
- Python `dict`s are association lists; lookup returns the first binding,
  which agrees with a real dict on duplicate-free key lists.
- Fallible Python code (uncaught exceptions) is modelled with `Except`.
-/

/-- Prepend a character to the first part of a split result. -/
def consHead (c : Char) : List (List Char) → List (List Char)
  | [] => [[c]]
  | r :: rs => (c :: r) :: rs

/-- Python `key.split("__")` on the character list of a key: split at the
leftmost, non-overlapping occurrences of the two-character separator `__`
(the separator fixed by `normalise_environment`). -/
def splitSep : List Char → List (List Char)
  | [] => [[]]
  | [c] => [[c]]
  | c :: d :: rest =>
    if c = '_' && d = '_' then [] :: splitSep rest
    else consHead c (splitSep (d :: rest))

/-- Python `"__".join(parts)` on character lists. -/
def joinSep : List (List Char) → List Char
  | [] => []
  | [p] => p
  | p :: ps => p ++ '_' :: '_' :: joinSep ps

/-- Python `s.split(sep)` for a single-character separator. -/
def splitChar (sep : Char) : List Char → List (List Char)
  | [] => [[]]
  | c :: rest => if c = sep then [] :: splitChar sep rest else consHead c (splitChar sep rest)

theorem consHead_ne_nil (c : Char) (L : List (List Char)) : consHead c L ≠ [] := by
  cases L <;> simp [consHead]

theorem splitSep_ne_nil (l : List Char) : splitSep l ≠ [] := by
  induction l using splitSep.induct with
  | case1 => simp [splitSep]
  | case2 c => simp [splitSep]
  | case3 c d rest h ih => simp [splitSep, h]
  | case4 c d rest h ih => simp [splitSep, h, consHead_ne_nil]

theorem joinSep_consHead (c : Char) (L : List (List Char)) (hL : L ≠ []) :
    joinSep (consHead c L) = c :: joinSep L := by
  match L with
  | [] => exact absurd rfl hL
  | [r] => simp [consHead, joinSep]
  | r :: q :: qs => simp [consHead, joinSep]

/-- `"__".join(key.split("__")) == key`: the split/join round trip. -/
theorem joinSep_splitSep (l : List Char) : joinSep (splitSep l) = l := by
  induction l using splitSep.induct with
  | case1 => simp [splitSep, joinSep]
  | case2 c => simp [splitSep, joinSep]
  | case3 c d rest h ih =>
    simp only [Bool.and_eq_true, decide_eq_true_eq] at h
    obtain ⟨hc, hd⟩ := h
    subst hc hd
    rcases hs : splitSep rest with _ | ⟨r, rs⟩
    · exact absurd hs (splitSep_ne_nil rest)
    · rw [hs] at ih
      have hsplit : splitSep ('_' :: '_' :: rest) = [] :: splitSep rest := by
        simp [splitSep]
      rw [hsplit, hs]
      simp only [joinSep]
      simpa using ih
  | case4 c d rest h ih =>
    simp only [splitSep, if_neg h]
    rw [joinSep_consHead c _ (splitSep_ne_nil _), ih]

/-- Python's whitespace characters stripped by `int(str)` (ASCII subset). -/
def pyWhitespace (c : Char) : Bool :=
  c = ' ' || c = '\t' || c = '\n' || c = '\r' || c = '\x0b' || c = '\x0c'

/-- Python `s.strip()` as performed by `int(str)` before parsing. -/
def pyStrip (l : List Char) : List Char :=
  ((l.dropWhile pyWhitespace).reverse.dropWhile pyWhitespace).reverse

/-- The digit part of Python's integer-literal syntax: a nonempty run of
digits with single underscores strictly between digits (ASCII digits; the
further Unicode decimal digits accepted by Python are not modelled). -/
def digitGroups : List Char → Bool
  | [] => false
  | [c] => c.isDigit
  | c :: '_' :: rest => c.isDigit && digitGroups rest
  | c :: rest => c.isDigit && digitGroups rest

/-- Numeric value of a digit run, skipping grouping underscores. -/
def digitsToNat (l : List Char) : Nat :=
  l.foldl (fun n c => if c = '_' then n else n * 10 + (c.toNat - '0'.toNat)) 0

/-- Python `int(s)`: `some` of the parsed value, or `none` where Python
raises `ValueError` (the `is_int` probe of `normalise_environment`). -/
def pyInt? (s : String) : Option Int :=
  match pyStrip s.data with
  | '+' :: r => if digitGroups r then some (digitsToNat r : Int) else none
  | '-' :: r => if digitGroups r then some (-(digitsToNat r : Int)) else none
  | r => if digitGroups r then some (digitsToNat r : Int) else none

/-- `is_int` from `normalise_environment`: does `int(s)` succeed. -/
def pyIsInt (s : String) : Bool := (pyInt? s).isSome

/-- The nested value produced by the config decoder: a leaf string, an
ordered sequence, or a mapping (a closed tagged union, per the source which
returns strings, lists and dicts). -/
inductive ConfigValue where
  | leaf : String → ConfigValue
  | list : List ConfigValue → ConfigValue
  | dict : List (String × ConfigValue) → ConfigValue

/-- First-binding association-list lookup (Python dict lookup on a
duplicate-free key list). -/
def alookup {α β : Type} [DecidableEq α] (k : α) : List (α × β) → Option β
  | [] => none
  | p :: l => if p.1 = k then some p.2 else alookup k l

/-! ## The configuration decoder `normalise_environment` -/

/-- `get_first_component` from the source: `key.split(separator)[0]`. -/
def get_first_component (key : String) : String :=
  ⟨(splitSep key.data).headD []⟩

/-- `get_later_components` from the source:
`separator.join(key.split(separator)[1:])`. -/
def get_later_components (key : String) : String :=
  ⟨joinSep (splitSep key.data).tail⟩

/-- `without_more_components`: the entries whose key has no later components
(the leaves of the current level). -/
def without_more_components (kv : List (String × String)) : List (String × String) :=
  kv.filter fun p => decide (get_later_components p.1 = "")

/-- `with_more_components`: the entries whose key has later components. -/
def with_more_components (kv : List (String × String)) : List (String × String) :=
  kv.filter fun p => !decide (get_later_components p.1 = "")

/-- Ordered insert for a Bool comparator. -/
def insertLe {α : Type} (le : α → α → Bool) (a : α) : List α → List α
  | [] => [a]
  | b :: l => if le a b then a :: b :: l else b :: insertLe le a l

/-- Python `sorted`, modelled as a stable insertion sort with the Bool
comparator `le`. -/
def sortLe {α : Type} (le : α → α → Bool) (l : List α) : List α :=
  l.foldr (insertLe le) []

/-- Code-point lexicographic `<` on character lists (Python string order). -/
def charListLt : List Char → List Char → Bool
  | [], [] => false
  | [], _ :: _ => true
  | _ :: _, [] => false
  | a :: as, b :: bs =>
    if a.toNat < b.toNat then true
    else if b.toNat < a.toNat then false
    else charListLt as bs

/-- Python string comparison `a <= b` (code-point lexicographic). -/
def strLe (a b : String) : Bool := !charListLt b.data a.data

/-- The group keys produced by `grouped_by_first_component`: the distinct
first components of the keys, in Python's sorted order. -/
def sortedFirsts (items : List (String × String)) : List String :=
  sortLe strLe ((items.map fun p => get_first_component p.1).dedup)

/-- `items_with_first_component` from the source: the entries of one group,
re-keyed by their later components. -/
def items_with_first_component (items : List (String × String)) (fc : String) :
    List (String × String) :=
  (items.filter fun p => decide (get_first_component p.1 = fc)).map
    fun p => (get_later_components p.1, p.2)

/-- Python `{**a, **b}`: entries of `a` in order with values overridden by
`b` where `b` binds the same key, then the entries of `b` whose key is not
in `a`. -/
def pyDictMerge {β : Type} (a b : List (String × β)) : List (String × β) :=
  (a.map fun p => (p.1, (alookup p.1 b).getD p.2)) ++
    b.filter fun q => (alookup q.1 a).isNone

/-- Comparator of `list_sorted_by_int_key`: compare entries by `int(key)`. -/
def intKeyLe (a b : String × ConfigValue) : Bool :=
  decide (((pyInt? a.1).getD 0) ≤ ((pyInt? b.1).getD 0))

/-- One level of `normalise_environment`: `nested_structured_dict`, with the
recursive call abstracted as `f`. -/
def levelWith (f : List (String × String) → ConfigValue)
    (kv : List (String × String)) : List (String × ConfigValue) :=
  pyDictMerge ((without_more_components kv).map fun p => (p.1, ConfigValue.leaf p.2))
    ((sortedFirsts (with_more_components kv)).map fun fc =>
      (fc, f (items_with_first_component (with_more_components kv) fc)))

/-- The final branch of `normalise_environment`: `list_sorted_by_int_key()`
if `all_keys_are_ints()` else `nested_structured_dict`. -/
def finishLevel (level : List (String × ConfigValue)) : ConfigValue :=
  if level.all fun p => pyIsInt p.1 then
    ConfigValue.list ((sortLe intKeyLe level).map Prod.snd)
  else ConfigValue.dict level

/-- Total character length of the keys; an upper bound on recursion depth,
used as fuel. -/
def keyLenSum (kv : List (String × String)) : Nat :=
  (kv.map fun p => p.1.length).sum

/-- `normalise_environment`, with explicit recursion fuel. -/
def normEnvFuel : Nat → List (String × String) → ConfigValue
  | 0, _ => ConfigValue.dict []
  | n + 1, kv => finishLevel (levelWith (normEnvFuel n) kv)

/-- `normalise_environment` from the source: recursively decode a flat
string-keyed mapping into a nested `ConfigValue`.  The fuel `keyLenSum kv + 1`
always suffices (`normEnvFuel_eq` below), because recursion strictly shrinks
the total key length. -/
def normalise_environment (kv : List (String × String)) : ConfigValue :=
  normEnvFuel (keyLenSum kv + 1) kv

/-- The level mapping (`nested_structured_dict`) of a flat input: leaves
merged with the recursively decoded groups. -/
def levelOf (kv : List (String × String)) : List (String × ConfigValue) :=
  levelWith normalise_environment kv

example :
    normalise_environment [("A__0__X", "1"), ("A__1__X", "2")] =
      ConfigValue.dict [("A", ConfigValue.list
        [ConfigValue.dict [("X", ConfigValue.leaf "1")],
         ConfigValue.dict [("X", ConfigValue.leaf "2")]])] := by rfl

example :
    normalise_environment [("A__X", "1"), ("A__Y", "2")] =
      ConfigValue.dict [("A", ConfigValue.dict
        [("X", ConfigValue.leaf "1"), ("Y", ConfigValue.leaf "2")])] := by rfl

example :
    normalise_environment [("A", "x"), ("A__B", "y")] =
      ConfigValue.dict [("A", ConfigValue.dict [("B", ConfigValue.leaf "y")])] := by rfl

/-! ## Fuel sufficiency for `normalise_environment` -/

theorem string_length_data (s : String) : s.length = s.data.length := rfl

/-- A key with later components is at least two characters longer than its
later components (it contains the first component and the separator). -/
theorem get_later_components_length {k : String} (h : ¬ get_later_components k = "") :
    (get_later_components k).length + 2 ≤ k.length := by
  rcases hs : splitSep k.data with _ | ⟨hd, t⟩
  · exact absurd hs (splitSep_ne_nil _)
  rcases t with _ | ⟨r, rs⟩
  · exact absurd (by simp [get_later_components, hs, joinSep]) h
  · have hk : k.data = joinSep (hd :: r :: rs) := by rw [← hs, joinSep_splitSep]
    have hlen : k.data.length = hd.length + (2 + (joinSep (r :: rs)).length) := by
      rw [hk]; simp [joinSep]; omega
    simp only [get_later_components, hs, string_length_data, List.tail_cons]
    omega

theorem insertLe_perm {α : Type} (le : α → α → Bool) (a : α) (l : List α) :
    (insertLe le a l).Perm (a :: l) := by
  induction l with
  | nil => simp [insertLe]
  | cons b l ih =>
    rw [insertLe]
    split
    · exact List.Perm.refl _
    · exact (ih.cons b).trans (List.Perm.swap a b l)

theorem sortLe_perm {α : Type} (le : α → α → Bool) (l : List α) :
    (sortLe le l).Perm l := by
  induction l with
  | nil => exact List.Perm.refl _
  | cons x l ih => exact (insertLe_perm le x (sortLe le l)).trans (ih.cons x)

theorem mem_sortLe {α : Type} {le : α → α → Bool} {a : α} {l : List α} :
    a ∈ sortLe le l ↔ a ∈ l :=
  (sortLe_perm le l).mem_iff

/-- Every group key of `sortedFirsts` is the first component of some entry. -/
theorem mem_sortedFirsts {items : List (String × String)} {fc : String}
    (h : fc ∈ sortedFirsts items) : ∃ p ∈ items, get_first_component p.1 = fc := by
  have h1 : fc ∈ (items.map fun p => get_first_component p.1).dedup :=
    mem_sortLe.mp h
  have h2 : fc ∈ items.map fun p => get_first_component p.1 := List.mem_dedup.mp h1
  obtain ⟨p, hp, hfp⟩ := List.mem_map.mp h2
  exact ⟨p, hp, hfp⟩

theorem sum_map_lt {α : Type} {f g : α → Nat} :
    ∀ {l : List α}, l ≠ [] → (∀ a ∈ l, f a < g a) →
      (l.map f).sum < (l.map g).sum := by
  intro l
  induction l with
  | nil => intro h; exact absurd rfl h
  | cons x l ih =>
    intro _ h
    rcases l with _ | ⟨y, l'⟩
    · simpa using h x (by simp)
    · have h1 := h x (by simp)
      have h2 := ih (by simp) fun a ha => h a (List.mem_cons_of_mem x ha)
      simp only [List.map_cons, List.sum_cons] at h2 ⊢
      omega

theorem sum_map_filter_le {α : Type} (f : α → Nat) (q : α → Bool) (l : List α) :
    ((l.filter q).map f).sum ≤ (l.map f).sum := by
  induction l with
  | nil => simp
  | cons x l ih =>
    rw [List.filter_cons]
    by_cases hx : q x = true
    · rw [if_pos hx]
      simp only [List.map_cons, List.sum_cons]
      omega
    · rw [if_neg hx]
      simp only [List.map_cons, List.sum_cons]
      omega

/-- Recursion strictly shrinks the total key length: each group of
`with_more_components kv` drops its first component and a separator. -/
theorem keyLenSum_items_lt {kv : List (String × String)} {fc : String}
    (h : fc ∈ sortedFirsts (with_more_components kv)) :
    keyLenSum (items_with_first_component (with_more_components kv) fc) < keyLenSum kv := by
  obtain ⟨p₀, hp₀W, hp₀fc⟩ := mem_sortedFirsts h
  set W := with_more_components kv with hW
  set G := W.filter fun p => decide (get_first_component p.1 = fc) with hG
  have hGne : G ≠ [] := by
    have : p₀ ∈ G := by
      rw [hG]
      exact List.mem_filter.mpr ⟨hp₀W, by simp [hp₀fc]⟩
    intro hnil
    rw [hnil] at this
    exact absurd this (List.not_mem_nil p₀)
  have hlater : ∀ p ∈ G, ¬ get_later_components p.1 = "" := by
    intro p hp
    have hpW : p ∈ W := List.mem_of_mem_filter hp
    have := (List.mem_filter.mp hpW).2
    simpa using this
  have hstep : keyLenSum (items_with_first_component W fc) =
      (G.map fun p => (get_later_components p.1).length).sum := by
    simp only [items_with_first_component, keyLenSum, hG, List.map_map]
    rfl
  have hlt : (G.map fun p => (get_later_components p.1).length).sum <
      (G.map fun p => p.1.length).sum := by
    refine sum_map_lt hGne fun p hp => ?_
    have := get_later_components_length (hlater p hp)
    omega
  have hle1 : (G.map fun p => p.1.length).sum ≤ (W.map fun p => p.1.length).sum := by
    rw [hG]; exact sum_map_filter_le _ _ W
  have hle2 : (W.map fun p => p.1.length).sum ≤ (kv.map fun p => p.1.length).sum := by
    rw [hW]; exact sum_map_filter_le _ _ kv
  have : keyLenSum W ≤ keyLenSum kv := hle2
  simp only [keyLenSum] at *
  omega

theorem levelWith_congr {f g : List (String × String) → ConfigValue}
    {kv : List (String × String)}
    (h : ∀ fc ∈ sortedFirsts (with_more_components kv),
      f (items_with_first_component (with_more_components kv) fc) =
        g (items_with_first_component (with_more_components kv) fc)) :
    levelWith f kv = levelWith g kv := by
  unfold levelWith
  congr 1
  exact List.map_congr_left fun fc hfc => by rw [h fc hfc]

/-- Any fuel above the total key length computes `normalise_environment`. -/
theorem normEnvFuel_eq : ∀ (n : Nat) (kv : List (String × String)),
    keyLenSum kv < n → normEnvFuel n kv = normalise_environment kv := by
  intro n
  induction n using Nat.strong_induction_on with
  | _ n ih =>
    intro kv hlt
    match n, hlt with
    | m + 1, hlt =>
      show finishLevel (levelWith (normEnvFuel m) kv) =
        normEnvFuel (keyLenSum kv + 1) kv
      show finishLevel (levelWith (normEnvFuel m) kv) =
        finishLevel (levelWith (normEnvFuel (keyLenSum kv)) kv)
      congr 1
      apply levelWith_congr
      intro fc hfc
      have hdec := keyLenSum_items_lt hfc
      rw [ih m (Nat.lt_succ_self m) _ (by omega),
        ih (keyLenSum kv) (by omega) _ hdec]

/-- `normalise_environment` returns one decoded level: the ordered sequence
of the level mapping sorted by integer key if all of its keys parse as
Python ints, and the level mapping itself otherwise. -/
theorem normalise_environment_eq_level (kv : List (String × String)) :
    normalise_environment kv = finishLevel (levelOf kv) := by
  show finishLevel (levelWith (normEnvFuel (keyLenSum kv)) kv) = finishLevel (levelOf kv)
  unfold levelOf
  congr 1
  apply levelWith_congr
  intro fc hfc
  exact normEnvFuel_eq (keyLenSum kv) _ (keyLenSum_items_lt hfc)

/-! ## Ordering and lookup lemmas -/

theorem mem_insertLe {α : Type} {le : α → α → Bool} {x a : α} {l : List α} :
    x ∈ insertLe le a l ↔ x = a ∨ x ∈ l := by
  rw [(insertLe_perm le a l).mem_iff]
  simp

theorem pairwise_insertLe {α : Type} {le : α → α → Bool}
    (htrans : ∀ a b c, le a b = true → le b c = true → le a c = true)
    (htot : ∀ a b, le a b = true ∨ le b a = true)
    (a : α) {l : List α} (h : l.Pairwise fun x y => le x y = true) :
    (insertLe le a l).Pairwise fun x y => le x y = true := by
  induction l with
  | nil => simp [insertLe]
  | cons b l ih =>
    rw [List.pairwise_cons] at h
    obtain ⟨hb, hl⟩ := h
    rw [insertLe]
    split
    · rename_i hab
      refine List.Pairwise.cons ?_ (List.Pairwise.cons hb hl)
      intro x hx
      rcases List.mem_cons.mp hx with rfl | hx
      · exact hab
      · exact htrans a b x hab (hb x hx)
    · rename_i hab
      have hba : le b a = true := (htot a b).resolve_left (by simpa using hab)
      refine List.Pairwise.cons ?_ (ih hl)
      intro x hx
      rcases mem_insertLe.mp hx with rfl | hx
      · exact hba
      · exact hb x hx

theorem pairwise_sortLe {α : Type} {le : α → α → Bool}
    (htrans : ∀ a b c, le a b = true → le b c = true → le a c = true)
    (htot : ∀ a b, le a b = true ∨ le b a = true) (l : List α) :
    (sortLe le l).Pairwise fun x y => le x y = true := by
  induction l with
  | nil => simp [sortLe]
  | cons x l ih => exact pairwise_insertLe htrans htot x ih

theorem alookup_isSome_of_mem {α β : Type} [DecidableEq α] {k : α} {w : β}
    {l : List (α × β)} (h : (k, w) ∈ l) : (alookup k l).isSome := by
  induction l with
  | nil => exact absurd h (List.not_mem_nil _)
  | cons p l ih =>
    rw [alookup]
    split
    · simp
    · rcases List.mem_cons.mp h with rfl | h
      · simp_all
      · exact ih h

theorem alookup_append_left {α β : Type} [DecidableEq α] {k : α}
    {a : List (α × β)} (b : List (α × β)) (h : (alookup k a).isSome) :
    alookup k (a ++ b) = alookup k a := by
  induction a with
  | nil => simp [alookup] at h
  | cons p l ih =>
    rw [List.cons_append, alookup, alookup]
    split
    · rfl
    · rename_i hp
      rw [alookup, if_neg hp] at h
      exact ih h

theorem alookup_map_override {α β : Type} [DecidableEq α] (g : α → β → β)
    (l : List (α × β)) (k : α) :
    alookup k (l.map fun p => (p.1, g p.1 p.2)) = (alookup k l).map (g k) := by
  induction l with
  | nil => simp [alookup]
  | cons p l ih =>
    rw [List.map_cons, alookup, alookup]
    split
    · rename_i hp
      subst hp
      rfl
    · exact ih

theorem alookup_map_self {α β : Type} [DecidableEq α] (f : α → β) (l : List α) (k : α) :
    alookup k (l.map fun a => (a, f a)) = if k ∈ l then some (f k) else none := by
  induction l with
  | nil => simp [alookup]
  | cons a l ih =>
    rw [List.map_cons, alookup]
    by_cases ha : a = k
    · subst ha
      simp
    · rw [if_neg (by simpa using ha), ih]
      by_cases hk : k ∈ l
      · rw [if_pos hk, if_pos (List.mem_cons_of_mem a hk)]
      · rw [if_neg hk, if_neg (by simp [hk]; exact fun h => ha h.symm)]

/-- The decoder never returns a bare leaf: each call emits a sequence or a
mapping. -/
theorem normalise_environment_ne_leaf (kv : List (String × String)) (s : String) :
    normalise_environment kv ≠ ConfigValue.leaf s := by
  rw [normalise_environment_eq_level, finishLevel]
  split <;> exact fun h => ConfigValue.noConfusion h

/-! ## Claims about the configuration decoder -/

/-- C10: the decoder applied to an empty flat mapping returns an empty
ordered sequence (the integer-keys condition holds vacuously), not an empty
mapping. -/
theorem normalise_empty_is_list :
    normalise_environment [] = ConfigValue.list [] ∧
      ConfigValue.list [] ≠ ConfigValue.dict [] :=
  ⟨rfl, fun h => ConfigValue.noConfusion h⟩

/-- The key predicate named by claim C4, stated from the spec's words: the
key parses as a non-negative base-10 integer.  To be compared with the
source's `is_int` (`pyIsInt`), which accepts any Python `int()` input,
signs included. -/
def specNonNegIntKey (s : String) : Bool :=
  !s.data.isEmpty && s.data.all Char.isDigit

/-- C4, counterexample: the key `"-1"` does not parse as a non-negative
base-10 integer, so the claim requires a mapping preserving the key, but
the decoder emits an ordered sequence (Python `int` accepts `"-1"`). -/
theorem normalise_negative_key_gives_list :
    specNonNegIntKey "-1" = false ∧
      normalise_environment [("-1", "x")] = ConfigValue.list [ConfigValue.leaf "x"] :=
  ⟨rfl, rfl⟩

/-- C4, amended: after grouping one level, if every key of the level
mapping parses as a base-10 integer in Python `int()` syntax (an optional
sign permitted), the decoder emits the grouped values as a sequence sorted
by ascending integer key; otherwise it emits the level mapping itself. -/
theorem normalise_int_keys_sorted (kv : List (String × String)) :
    (((levelOf kv).all fun p => pyIsInt p.1) = true →
      ∃ s : List (String × ConfigValue), s.Perm (levelOf kv) ∧
        (s.Pairwise fun a b => ((pyInt? a.1).getD 0) ≤ ((pyInt? b.1).getD 0)) ∧
        normalise_environment kv = ConfigValue.list (s.map Prod.snd)) ∧
    (((levelOf kv).all fun p => pyIsInt p.1) = false →
      normalise_environment kv = ConfigValue.dict (levelOf kv)) := by
  constructor
  · intro hall
    refine ⟨sortLe intKeyLe (levelOf kv), sortLe_perm _ _, ?_, ?_⟩
    · have hp := @pairwise_sortLe (String × ConfigValue) intKeyLe
        (fun a b c h1 h2 => by
          simp only [intKeyLe, decide_eq_true_eq] at *
          omega)
        (fun a b => by
          simp only [intKeyLe, decide_eq_true_eq]
          omega)
        (levelOf kv)
      exact hp.imp fun h => by simpa [intKeyLe] using h
    · rw [normalise_environment_eq_level, finishLevel, if_pos hall]
  · intro hall
    rw [normalise_environment_eq_level, finishLevel,
      if_neg (by rw [hall]; exact Bool.false_ne_true)]

/-- Witness for the amended C4 at concrete inputs: integer keys `"0" "1"`
give a sorted sequence; the non-integer key `"A"` gives the level mapping. -/
theorem normalise_int_keys_sorted_witness :
    (∃ s : List (String × ConfigValue), s.Perm (levelOf [("0", "a"), ("1", "b")]) ∧
      (s.Pairwise fun a b => ((pyInt? a.1).getD 0) ≤ ((pyInt? b.1).getD 0)) ∧
      normalise_environment [("0", "a"), ("1", "b")] = ConfigValue.list (s.map Prod.snd)) ∧
    normalise_environment [("A", "x")] = ConfigValue.dict (levelOf [("A", "x")]) :=
  ⟨(normalise_int_keys_sorted [("0", "a"), ("1", "b")]).1 rfl,
   (normalise_int_keys_sorted [("A", "x")]).2 rfl⟩

/-- C8: when a key is both a complete leaf key and the first component of
deeper keys, the level mapping binds it to the recursively decoded deeper
structure (never to the leaf value, which is silently discarded). -/
theorem leaf_prefix_conflict_nested_wins (kv : List (String × String)) (k v : String)
    (hmem : (k, v) ∈ kv) (hleaf : get_later_components k = "")
    (hdeep : ∃ p ∈ kv, get_first_component p.1 = k ∧ ¬ get_later_components p.1 = "") :
    alookup k (levelOf kv) =
      some (normalise_environment
        (items_with_first_component (with_more_components kv) k)) ∧
    ∀ s, alookup k (levelOf kv) ≠ some (ConfigValue.leaf s) := by
  obtain ⟨p, hpkv, hpfc, hpmore⟩ := hdeep
  have hpW : p ∈ with_more_components kv :=
    List.mem_filter.mpr ⟨hpkv, by simpa using hpmore⟩
  have hkfirsts : k ∈ sortedFirsts (with_more_components kv) := by
    apply mem_sortLe.mpr
    apply List.mem_dedup.mpr
    exact List.mem_map.mpr ⟨p, hpW, hpfc⟩
  have hkA : ((k, v) : String × String) ∈ without_more_components kv :=
    List.mem_filter.mpr ⟨hmem, by simpa using hleaf⟩
  have hmain : alookup k (levelOf kv) =
      some (normalise_environment
        (items_with_first_component (with_more_components kv) k)) := by
    unfold levelOf levelWith pyDictMerge
    set B := (sortedFirsts (with_more_components kv)).map fun fc =>
      (fc, normalise_environment
        (items_with_first_component (with_more_components kv) fc)) with hB
    set A := (without_more_components kv).map fun p => (p.1, ConfigValue.leaf p.2) with hA
    have hlookB : alookup k B = some (normalise_environment
        (items_with_first_component (with_more_components kv) k)) := by
      rw [hB, alookup_map_self, if_pos hkfirsts]
    have hlookA : (alookup k A).isSome := by
      exact alookup_isSome_of_mem
        (show ((k, ConfigValue.leaf v) : String × ConfigValue) ∈ A from by
          rw [hA]
          exact List.mem_map.mpr ⟨(k, v), hkA, rfl⟩)
    have hover : alookup k (A.map fun p => (p.1, (alookup p.1 B).getD p.2)) =
        (alookup k A).map fun w => (alookup k B).getD w :=
      alookup_map_override (fun key val => (alookup key B).getD val) A k
    obtain ⟨w, hw⟩ := Option.isSome_iff_exists.mp hlookA
    have hsomeA' : (alookup k (A.map fun p => (p.1, (alookup p.1 B).getD p.2))).isSome := by
      rw [hover, hw]
      rfl
    rw [alookup_append_left _ hsomeA', hover, hw, Option.map_some', hlookB]
    rfl
  refine ⟨hmain, fun s h => ?_⟩
  rw [hmain] at h
  exact normalise_environment_ne_leaf _ s (Option.some.inj h)

/-- Witness for C8: `{"A": "x", "A__B": "y"}` binds `A` to the nested
decode of `{"B": "y"}`; the leaf `"x"` is dropped. -/
theorem leaf_prefix_conflict_nested_wins_witness :
    alookup "A" (levelOf [("A", "x"), ("A__B", "y")]) =
      some (normalise_environment (items_with_first_component
        (with_more_components [("A", "x"), ("A__B", "y")]) "A")) ∧
    ∀ s, alookup "A" (levelOf [("A", "x"), ("A__B", "y")]) ≠
      some (ConfigValue.leaf s) :=
  leaf_prefix_conflict_nested_wins [("A", "x"), ("A__B", "y")] "A" "x"
    (by simp) rfl ⟨("A__B", "y"), by simp, rfl, by decide⟩

/-! ## The tile handler `get_tile` -/

/-- Python runtime exceptions escaping a handler: an upstream
transport/protocol failure of the Remote Archive Query collaborator, or a
`KeyError`/`TypeError` while editing a style document.  Uncaught, they are
surfaced by the server as a 5xx response. -/
inductive PyErr where
  | upstream : PyErr
  | keyError : PyErr
  | typeError : PyErr

/-- A Flask `Response`: status, optional body bytes, headers. -/
structure Resp where
  status : Nat
  body : Option (List Nat)
  headers : List (String × String)

/-- One parameterized read issued by the tile handler: the fixed SQL
`SELECT tile_data FROM tiles WHERE zoom_level=? AND tile_column=? AND
tile_row=? LIMIT 1` with its three parameters and its row limit. -/
structure TileQuery where
  zoom : Int
  col : Int
  row : Int
  rowLimit : Nat

/-- `(2**z - 1) - y` from `get_tile`: the XYZ to TMS row conversion
(Python int arithmetic, so the result may be negative). -/
def y_tms (z : Nat) (y : Int) : Int := 2 ^ z - 1 - y

/-- `get_tile`.  `mbtiles_dict` maps `(identifier, version)` to the archive
URL.  `query` is the Remote Archive Query collaborator: given the URL and a
parameterized limited read it returns the matching rows (each row being its
single selected `tile_data` column) or fails.  The `z`, `x`, `y` route
parameters are `Nat` because Flask's `<int:>` converter matches only
digits.  The result pairs the response with the list of reads issued;
`for row in rows` keeps the last row. -/
def get_tile (mbtiles_dict : List ((String × String) × String))
    (query : String → TileQuery → Except PyErr (List (List Nat)))
    (identifier version : String) (z x y : Nat) :
    Except PyErr (Resp × List TileQuery) :=
  match alookup (identifier, version) mbtiles_dict with
  | none => .ok (⟨404, none, []⟩, [])
  | some url =>
    let req : TileQuery := ⟨(z : Int), (x : Int), y_tms z (y : Int), 1⟩
    match query url req with
    | .error e => .error e
    | .ok rows =>
      match rows.getLast? with
      | some tile_data =>
        .ok (⟨200, some tile_data,
          [("content-encoding", "gzip"),
           ("content-type", "application/vnd.mapbox-vector-tile")]⟩, [req])
      | none => .ok (⟨404, none, []⟩, [req])

/-- C1: for a catalogued `(identifier, version)`, the tile handler issues
exactly one parameterized read, for `(z, x, 2^z - 1 - y)` limited to one
row; a returned row yields 200 carrying the row's raw bytes with
content-encoding gzip and the vector-tile media type, and no row yields
404. -/
theorem get_tile_single_query
    (mbtiles_dict : List ((String × String) × String))
    (query : String → TileQuery → Except PyErr (List (List Nat)))
    (identifier version : String) (z x y : Nat) (url : String)
    (rows : List (List Nat))
    (hurl : alookup (identifier, version) mbtiles_dict = some url)
    (hq : query url ⟨(z : Int), (x : Int), y_tms z (y : Int), 1⟩ = .ok rows) :
    (rows = [] →
      get_tile mbtiles_dict query identifier version z x y =
        .ok (⟨404, none, []⟩, [⟨(z : Int), (x : Int), y_tms z (y : Int), 1⟩])) ∧
    (∀ d, rows = [d] →
      get_tile mbtiles_dict query identifier version z x y =
        .ok (⟨200, some d,
          [("content-encoding", "gzip"),
           ("content-type", "application/vnd.mapbox-vector-tile")]⟩,
          [⟨(z : Int), (x : Int), y_tms z (y : Int), 1⟩])) := by
  constructor
  · intro hrows
    subst hrows
    simp [get_tile, hurl, hq]
  · intro d hrows
    subst hrows
    simp [get_tile, hurl, hq]

/-- Witness for C1 at a concrete catalog and collaborator: an empty result
gives 404, a one-row result gives 200 with the row's bytes. -/
theorem get_tile_single_query_witness :
    (get_tile [(("counties", "1"), "u")] (fun _ _ => .ok []) "counties" "1" 3 2 2 =
      .ok (⟨404, none, []⟩, [⟨3, 2, y_tms 3 2, 1⟩])) ∧
    (get_tile [(("counties", "1"), "u")] (fun _ _ => .ok [[7, 9]]) "counties" "1" 3 2 2 =
      .ok (⟨200, some [7, 9],
        [("content-encoding", "gzip"),
         ("content-type", "application/vnd.mapbox-vector-tile")]⟩,
        [⟨3, 2, y_tms 3 2, 1⟩])) :=
  ⟨(get_tile_single_query [(("counties", "1"), "u")] (fun _ _ => .ok [])
      "counties" "1" 3 2 2 "u" [] rfl rfl).1 rfl,
   (get_tile_single_query [(("counties", "1"), "u")] (fun _ _ => .ok [[7, 9]])
      "counties" "1" 3 2 2 "u" [[7, 9]] rfl rfl).2 [7, 9] rfl⟩

/-- C3: a transport/protocol failure of the collaborator propagates out of
the tile handler unchanged (a server-side failure, never a 404 response);
the handler answers 404 only for an unknown catalog key or an empty query
result. -/
theorem get_tile_upstream_propagates
    (mbtiles_dict : List ((String × String) × String))
    (query : String → TileQuery → Except PyErr (List (List Nat)))
    (identifier version : String) (z x y : Nat) :
    (∀ url e, alookup (identifier, version) mbtiles_dict = some url →
      query url ⟨(z : Int), (x : Int), y_tms z (y : Int), 1⟩ = .error e →
      get_tile mbtiles_dict query identifier version z x y = .error e) ∧
    (∀ resp log,
      get_tile mbtiles_dict query identifier version z x y = .ok (resp, log) →
      resp.status = 404 →
      alookup (identifier, version) mbtiles_dict = none ∨
      ∃ url, alookup (identifier, version) mbtiles_dict = some url ∧
        query url ⟨(z : Int), (x : Int), y_tms z (y : Int), 1⟩ = .ok []) := by
  constructor
  · intro url e hurl hq
    simp [get_tile, hurl, hq]
  · intro resp log hok h404
    rcases hurl : alookup (identifier, version) mbtiles_dict with _ | url
    · exact Or.inl rfl
    · refine Or.inr ⟨url, rfl, ?_⟩
      rcases hq : query url ⟨(z : Int), (x : Int), y_tms z (y : Int), 1⟩ with e | rows
      · simp [get_tile, hurl, hq] at hok
      · rcases hlast : rows.getLast? with _ | d
        · rw [List.getLast?_eq_none_iff] at hlast
          rw [hlast]
        · simp [get_tile, hurl, hq, hlast] at hok
          rw [← hok.1] at h404
          simp at h404

/-- Witness for C3: a failing collaborator makes the handler fail; an empty
result makes it answer 404 with the query having returned no rows. -/
theorem get_tile_upstream_propagates_witness :
    (get_tile [(("counties", "1"), "u")] (fun _ _ => .error .upstream)
        "counties" "1" 3 2 2 = .error .upstream) ∧
    (alookup ("counties", "1") [(("counties", "1"), "u")] = none ∨
      ∃ url, alookup ("counties", "1") [(("counties", "1"), "u")] = some url ∧
        (fun (_ : String) (_ : TileQuery) =>
            (.ok [] : Except PyErr (List (List Nat)))) url
          ⟨(3 : Int), (2 : Int), y_tms 3 (2 : Int), 1⟩ = .ok []) :=
  ⟨(get_tile_upstream_propagates [(("counties", "1"), "u")]
      (fun _ _ => .error .upstream) "counties" "1" 3 2 2).1 "u" .upstream rfl rfl,
   (get_tile_upstream_propagates [(("counties", "1"), "u")]
      (fun _ _ => .ok []) "counties" "1" 3 2 2).2
     ⟨404, none, []⟩ [⟨(3 : Int), (2 : Int), y_tms 3 (2 : Int), 1⟩] rfl rfl⟩

/-- C6: the XYZ to TMS row transform `y ↦ 2^z - 1 - y` is an involution on
each zoom level `z`. -/
theorem y_tms_involution (z : Nat) (y : Int) (h0 : 0 ≤ y) (hz : y < 2 ^ z) :
    y_tms z (y_tms z y) = y := by
  unfold y_tms
  ring

/-- Witness for C6 at `z = 3`, `y = 2`. -/
theorem y_tms_involution_witness :
    (0 : Int) ≤ 2 ∧ (2 : Int) < 2 ^ 3 ∧ y_tms 3 (y_tms 3 2) = 2 :=
  ⟨by decide, by decide, y_tms_involution 3 2 (by decide) (by decide)⟩

/-! ## The style handler `get_styles` -/

/-- A JSON value: the deserialized form of a style template. -/
inductive JVal where
  | null : JVal
  | bool : Bool → JVal
  | num : Int → JVal
  | str : String → JVal
  | arr : List JVal → JVal
  | obj : List (String × JVal) → JVal

/-- Python dict assignment `d[k] = v` on a JSON object: replace the value
in place where the key is bound, else append the new binding. -/
def objSet (kvs : List (String × JVal)) (k : String) (v : JVal) :
    List (String × JVal) :=
  if kvs.any fun p => decide (p.1 = k) then
    kvs.map fun p => if p.1 = k then (k, v) else p
  else kvs ++ [(k, v)]

/-- The vector-tile source object `get_styles` injects under
`sources['openmaptiles']`. -/
def openmaptilesSource (url_root tiles_ref : String) : JVal :=
  .obj [("type", .str "vector"),
        ("tiles", .arr [.str (url_root ++ "v1/tiles/" ++ tiles_ref ++ "/{z}/{x}/{y}.mvt")])]

/-- The glyph URL template `get_styles` stores under `glyphs`. -/
def glyphsUrl (url_root fonts_ref : String) : String :=
  url_root ++ "v1/fonts/" ++ fonts_ref ++ "/{fontstack}/{range}.pbf"

/-- A style response: status and, on success, the composed JSON document
(the source serializes it with `json.dumps`; we keep the structured form). -/
structure StyleResp where
  status : Nat
  doc : Option JVal

/-- A compiled-in font collection: the extracted glyph files, keyed by
`(font name, range label)`, each holding the file's bytes. -/
def FontStore : Type := List ((String × String) × List Nat)

/-- `get_styles`.  `styles_dict` holds the deserialized templates (the
source stores bytes and `json.loads` them on success); `args` is the
request's query-string mapping; `url_root` is `request.url_root`.
Mutation of the template (`style_dict['sources']['openmaptiles'] = ...`,
`style_dict['glyphs'] = ...`) raises `KeyError`/`TypeError` when the
template is not an object with an object under `sources`. -/
def get_styles (styles_dict : List ((String × String × String) × JVal))
    (mbtiles_dict : List ((String × String) × String))
    (fonts_dict : List ((String × String) × FontStore))
    (identifier version file : String) (args : List (String × String))
    (url_root : String) : Except PyErr StyleResp :=
  match alookup (identifier, version, file) styles_dict with
  | none => .ok ⟨404, none⟩
  | some style_template =>
    match alookup "tiles" args with
    | none => .ok ⟨400, none⟩
    | some tiles_ref =>
      match (splitChar '@' tiles_ref.data).map (fun l => (⟨l⟩ : String)) with
      | [tiles_identifier, tiles_version] =>
        match alookup (tiles_identifier, tiles_version) mbtiles_dict with
        | none => .ok ⟨404, none⟩
        | some _ =>
          match alookup "fonts" args with
          | none => .ok ⟨400, none⟩
          | some fonts_ref =>
            match (splitChar '@' fonts_ref.data).map (fun l => (⟨l⟩ : String)) with
            | [fonts_identifier, fonts_version] =>
              match alookup (fonts_identifier, fonts_version) fonts_dict with
              | none => .ok ⟨404, none⟩
              | some _ =>
                match style_template with
                | .obj kvs =>
                  match alookup "sources" kvs with
                  | some (.obj srcs) =>
                    .ok ⟨200, some (.obj (objSet
                      (objSet kvs "sources" (.obj (objSet srcs "openmaptiles"
                        (openmaptilesSource url_root tiles_ref))))
                      "glyphs" (.str (glyphsUrl url_root fonts_ref))))⟩
                  | some _ => .error .typeError
                  | none => .error .keyError
                | _ => .error .typeError
            | _ => .ok ⟨400, none⟩
      | _ => .ok ⟨400, none⟩


/-- The spec's validation cascade for the style handler, stated from the
spec's own words (template exists; `tiles` present; `tiles` splits into
exactly two `@`-separated components; tile source catalogued; `fonts`
present; `fonts` splits into exactly two; font collection catalogued),
first failure wins; `none` when every check passes.  To be compared with
`get_styles`. -/
def styleValidationStatus (styleKeys : List (String × String × String))
    (tileKeys fontKeys : List (String × String))
    (identifier version file : String) (args : List (String × String)) :
    Option Nat :=
  if ¬ (identifier, version, file) ∈ styleKeys then some 404
  else if alookup "tiles" args = none then some 400
  else if (splitChar '@' ((alookup "tiles" args).getD "").data).length ≠ 2 then
    some 400
  else if ¬ ((⟨(splitChar '@' ((alookup "tiles" args).getD "").data).headD []⟩ : String),
      (⟨(splitChar '@' ((alookup "tiles" args).getD "").data).tail.headD []⟩ : String))
      ∈ tileKeys then some 404
  else if alookup "fonts" args = none then some 400
  else if (splitChar '@' ((alookup "fonts" args).getD "").data).length ≠ 2 then
    some 400
  else if ¬ ((⟨(splitChar '@' ((alookup "fonts" args).getD "").data).headD []⟩ : String),
      (⟨(splitChar '@' ((alookup "fonts" args).getD "").data).tail.headD []⟩ : String))
      ∈ fontKeys then some 404
  else none

theorem alookup_eq_none_iff {α β : Type} [DecidableEq α] {k : α}
    {l : List (α × β)} : alookup k l = none ↔ k ∉ l.map Prod.fst := by
  induction l with
  | nil => simp [alookup]
  | cons p l ih =>
    rw [alookup]
    by_cases hp : p.1 = k
    · simp [hp]
    · simp only [if_neg hp, ih, List.map_cons, List.mem_cons]
      constructor
      · intro h hmem
        rcases hmem with hmem | hmem
        · exact hp hmem.symm
        · exact h hmem
      · intro h hmem
        exact h (Or.inr hmem)

theorem alookup_mem_of_some {α β : Type} [DecidableEq α] {k : α} {w : β}
    {l : List (α × β)} (h : alookup k l = some w) : k ∈ l.map Prod.fst := by
  by_contra hc
  rw [alookup_eq_none_iff.mpr hc] at h
  exact Option.noConfusion h

/-- C2: the style handler reports validation failures in the spec's exact
first-failure-wins order (unknown template 404; missing `tiles` 400;
`tiles` not two `@`-components 400; unknown tile source 404; missing
`fonts` 400; `fonts` not two components 400; unknown font collection 404):
whenever the cascade yields a status, `get_styles` answers exactly that
status with no body — in particular a missing or malformed `tiles` yields
400 regardless of the `fonts` parameter. -/
theorem get_styles_validation_order
    (styles_dict : List ((String × String × String) × JVal))
    (mbtiles_dict : List ((String × String) × String))
    (fonts_dict : List ((String × String) × FontStore))
    (identifier version file : String) (args : List (String × String))
    (url_root : String) (s : Nat)
    (h : styleValidationStatus (styles_dict.map Prod.fst)
      (mbtiles_dict.map Prod.fst) (fonts_dict.map Prod.fst)
      identifier version file args = some s) :
    get_styles styles_dict mbtiles_dict fonts_dict identifier version file
      args url_root = .ok ⟨s, none⟩ := by
  rw [styleValidationStatus] at h
  rcases hstyle : alookup (identifier, version, file) styles_dict with _ | tmpl
  · rw [if_pos (alookup_eq_none_iff.mp hstyle)] at h
    rw [← Option.some.inj h]
    simp [get_styles, hstyle]
  · rw [if_neg (not_not_intro (alookup_mem_of_some hstyle))] at h
    rcases htiles : alookup "tiles" args with _ | tiles_ref
    · rw [htiles, if_pos rfl] at h
      rw [← Option.some.inj h]
      simp [get_styles, hstyle, htiles]
    · rw [htiles, if_neg (by simp), Option.getD_some] at h
      rcases hsp : splitChar '@' tiles_ref.data with _ | ⟨a, t⟩
      · rw [hsp, if_pos (by simp)] at h
        rw [← Option.some.inj h]
        simp [get_styles, hstyle, htiles, hsp]
      · rcases t with _ | ⟨b, t2⟩
        · rw [hsp, if_pos (by simp)] at h
          rw [← Option.some.inj h]
          simp [get_styles, hstyle, htiles, hsp]
        · rcases t2 with _ | ⟨c, t3⟩
          · rw [hsp, if_neg (by simp)] at h
            simp only [List.headD_cons, List.tail_cons] at h
            rcases hmb : alookup ((⟨a⟩ : String), (⟨b⟩ : String)) mbtiles_dict
              with _ | w
            · rw [if_pos (alookup_eq_none_iff.mp hmb)] at h
              rw [← Option.some.inj h]
              simp [get_styles, hstyle, htiles, hsp, hmb]
            · rw [if_neg (not_not_intro (alookup_mem_of_some hmb))] at h
              rcases hfonts : alookup "fonts" args with _ | fonts_ref
              · rw [hfonts, if_pos rfl] at h
                rw [← Option.some.inj h]
                simp [get_styles, hstyle, htiles, hsp, hmb, hfonts]
              · rw [hfonts, if_neg (by simp), Option.getD_some] at h
                rcases hfsp : splitChar '@' fonts_ref.data with _ | ⟨fa, ft⟩
                · rw [hfsp, if_pos (by simp)] at h
                  rw [← Option.some.inj h]
                  simp [get_styles, hstyle, htiles, hsp, hmb, hfonts, hfsp]
                · rcases ft with _ | ⟨fb, ft2⟩
                  · rw [hfsp, if_pos (by simp)] at h
                    rw [← Option.some.inj h]
                    simp [get_styles, hstyle, htiles, hsp, hmb, hfonts, hfsp]
                  · rcases ft2 with _ | ⟨fc, ft3⟩
                    · rw [hfsp, if_neg (by simp)] at h
                      simp only [List.headD_cons, List.tail_cons] at h
                      rcases hfd : alookup ((⟨fa⟩ : String), (⟨fb⟩ : String))
                          fonts_dict with _ | fw
                      · rw [if_pos (alookup_eq_none_iff.mp hfd)] at h
                        rw [← Option.some.inj h]
                        simp [get_styles, hstyle, htiles, hsp, hmb, hfonts,
                          hfsp, hfd]
                      · rw [if_neg (not_not_intro (alookup_mem_of_some hfd))] at h
                        exact Option.noConfusion h
                    · rw [hfsp, if_pos (by simp)] at h
                      rw [← Option.some.inj h]
                      simp [get_styles, hstyle, htiles, hsp, hmb, hfonts, hfsp]
          · rw [hsp, if_pos (by simp)] at h
            rw [← Option.some.inj h]
            simp [get_styles, hstyle, htiles, hsp]

/-- Witness for C2: a `tiles` value without `@` yields 400 even though the
`fonts` parameter is present and valid. -/
theorem get_styles_validation_order_witness :
    styleValidationStatus [("p", "1", "style.json")] [("A", "1")] [("B", "2")]
      "p" "1" "style.json" [("tiles", "A1"), ("fonts", "B@2")] = some 400 ∧
    get_styles [(("p", "1", "style.json"), JVal.null)] [(("A", "1"), "u")]
      [(("B", "2"), ([] : FontStore))] "p" "1" "style.json"
      [("tiles", "A1"), ("fonts", "B@2")] "http://h/" = .ok ⟨400, none⟩ :=
  ⟨rfl, get_styles_validation_order [(("p", "1", "style.json"), JVal.null)]
    [(("A", "1"), "u")] [(("B", "2"), ([] : FontStore))] "p" "1" "style.json"
    [("tiles", "A1"), ("fonts", "B@2")] "http://h/" 400 rfl⟩

theorem alookup_append_none {α β : Type} [DecidableEq α] {k : α}
    {a : List (α × β)} (b : List (α × β)) (h : alookup k a = none) :
    alookup k (a ++ b) = alookup k b := by
  induction a with
  | nil => rfl
  | cons p l ih =>
    rw [alookup] at h
    rw [List.cons_append, alookup]
    by_cases hp : p.1 = k
    · rw [if_pos hp] at h
      exact Option.noConfusion h
    · rw [if_neg hp] at h
      rw [if_neg hp]
      exact ih h

theorem alookup_map_setkey (l : List (String × JVal)) (k : String) (v : JVal)
    (hany : (l.any fun p => decide (p.1 = k)) = true) :
    alookup k (l.map fun p => if p.1 = k then (k, v) else p) = some v := by
  induction l with
  | nil => simp at hany
  | cons p l ih =>
    rw [List.map_cons]
    by_cases hp : p.1 = k
    · rw [if_pos hp, alookup, if_pos rfl]
    · rw [if_neg hp, alookup, if_neg hp]
      apply ih
      rw [List.any_cons] at hany
      simpa [hp] using hany

theorem alookup_map_setkey_other (l : List (String × JVal)) (k : String)
    (v : JVal) (k' : String) (hk : k' ≠ k) :
    alookup k' (l.map fun p => if p.1 = k then (k, v) else p) = alookup k' l := by
  induction l with
  | nil => rfl
  | cons p l ih =>
    rw [List.map_cons]
    by_cases hp : p.1 = k
    · rw [if_pos hp, alookup, alookup,
        if_neg (fun hh => hk hh.symm),
        if_neg (fun hh => hk (hp.symm.trans hh).symm), ih]
    · rw [if_neg hp, alookup, alookup]
      by_cases hpk' : p.1 = k'
      · rw [if_pos hpk', if_pos hpk']
      · rw [if_neg hpk', if_neg hpk', ih]

/-- `d[k] = v` makes `d[k]` resolve to `v`. -/
theorem alookup_objSet_same (kvs : List (String × JVal)) (k : String) (v : JVal) :
    alookup k (objSet kvs k v) = some v := by
  unfold objSet
  by_cases hany : (kvs.any fun p => decide (p.1 = k)) = true
  · rw [if_pos hany]
    exact alookup_map_setkey kvs k v hany
  · rw [if_neg hany]
    have hnone : alookup k kvs = none := by
      apply alookup_eq_none_iff.mpr
      intro hkmem
      obtain ⟨p, hp, hpk⟩ := List.mem_map.mp hkmem
      exact hany (List.any_eq_true.mpr ⟨p, hp, by simp [hpk]⟩)
    rw [alookup_append_none _ hnone, alookup, if_pos rfl]

/-- `d[k] = v` leaves every other key's resolution unchanged. -/
theorem alookup_objSet_other (kvs : List (String × JVal)) (k : String)
    (v : JVal) (k' : String) (hk : k' ≠ k) :
    alookup k' (objSet kvs k v) = alookup k' kvs := by
  unfold objSet
  by_cases hany : (kvs.any fun p => decide (p.1 = k)) = true
  · rw [if_pos hany]
    exact alookup_map_setkey_other kvs k v k' hk
  · rw [if_neg hany]
    by_cases hsome : (alookup k' kvs).isSome
    · exact alookup_append_left _ hsome
    · have hnone : alookup k' kvs = none := by
        rcases hx : alookup k' kvs with _ | w
        · rfl
        · rw [hx] at hsome
          simp at hsome
      rw [alookup_append_none _ hnone, alookup, if_neg (fun hh => hk hh.symm),
        alookup, hnone]

/-- C9: a successful style response equals the deserialized template with
exactly two modifications — the `openmaptiles` entry of its `sources`
mapping and the top-level `glyphs` value; every other binding of the
template, at both levels, resolves unchanged in the response document. -/
theorem get_styles_success_frame
    (styles_dict : List ((String × String × String) × JVal))
    (mbtiles_dict : List ((String × String) × String))
    (fonts_dict : List ((String × String) × FontStore))
    (identifier version file : String) (args : List (String × String))
    (url_root : String) (kvs srcs : List (String × JVal))
    (tiles_ref fonts_ref ti tv fi fv : String)
    (hstyle : alookup (identifier, version, file) styles_dict = some (.obj kvs))
    (hsrcs : alookup "sources" kvs = some (.obj srcs))
    (htiles : alookup "tiles" args = some tiles_ref)
    (hts : (splitChar '@' tiles_ref.data).map (fun l => (⟨l⟩ : String)) = [ti, tv])
    (hmb : (alookup (ti, tv) mbtiles_dict).isSome = true)
    (hfonts : alookup "fonts" args = some fonts_ref)
    (hfs : (splitChar '@' fonts_ref.data).map (fun l => (⟨l⟩ : String)) = [fi, fv])
    (hfd : (alookup (fi, fv) fonts_dict).isSome = true) :
    ∃ kvs2 srcs2,
      get_styles styles_dict mbtiles_dict fonts_dict identifier version file
        args url_root = .ok ⟨200, some (.obj kvs2)⟩ ∧
      alookup "sources" kvs2 = some (.obj srcs2) ∧
      alookup "glyphs" kvs2 = some (.str (glyphsUrl url_root fonts_ref)) ∧
      alookup "openmaptiles" srcs2 =
        some (openmaptilesSource url_root tiles_ref) ∧
      (∀ key, key ≠ "sources" → key ≠ "glyphs" →
        alookup key kvs2 = alookup key kvs) ∧
      (∀ key, key ≠ "openmaptiles" → alookup key srcs2 = alookup key srcs) := by
  obtain ⟨w, hw⟩ := Option.isSome_iff_exists.mp hmb
  obtain ⟨fw, hfw⟩ := Option.isSome_iff_exists.mp hfd
  refine ⟨objSet (objSet kvs "sources" (.obj (objSet srcs "openmaptiles"
      (openmaptilesSource url_root tiles_ref)))) "glyphs"
      (.str (glyphsUrl url_root fonts_ref)),
    objSet srcs "openmaptiles" (openmaptilesSource url_root tiles_ref),
    ?_, ?_, ?_, ?_, ?_, ?_⟩
  · simp [get_styles, hstyle, htiles, hts, hw, hfonts, hfs, hfw, hsrcs]
  · rw [alookup_objSet_other _ _ _ _ (by decide), alookup_objSet_same]
  · rw [alookup_objSet_same]
  · rw [alookup_objSet_same]
  · intro key h1 h2
    rw [alookup_objSet_other _ _ _ _ h2, alookup_objSet_other _ _ _ _ h1]
  · intro key h1
    rw [alookup_objSet_other _ _ _ _ h1]

/-- Witness for C9 at a concrete template `{"version": 8, "sources":
{"other": null}}` and valid `tiles`/`fonts` references. -/
theorem get_styles_success_frame_witness :
    ∃ kvs2 srcs2,
      get_styles
        [(("p", "1", "style.json"),
          JVal.obj [("version", JVal.num 8),
            ("sources", JVal.obj [("other", JVal.null)])])]
        [(("A", "1"), "u")] [(("B", "2"), ([] : FontStore))]
        "p" "1" "style.json" [("tiles", "A@1"), ("fonts", "B@2")] "http://h/" =
        .ok ⟨200, some (.obj kvs2)⟩ ∧
      alookup "sources" kvs2 = some (.obj srcs2) ∧
      alookup "glyphs" kvs2 = some (.str (glyphsUrl "http://h/" "B@2")) ∧
      alookup "openmaptiles" srcs2 =
        some (openmaptilesSource "http://h/" "A@1") ∧
      (∀ key, key ≠ "sources" → key ≠ "glyphs" →
        alookup key kvs2 =
          alookup key [("version", JVal.num 8),
            ("sources", JVal.obj [("other", JVal.null)])]) ∧
      (∀ key, key ≠ "openmaptiles" →
        alookup key srcs2 = alookup key [("other", JVal.null)]) :=
  get_styles_success_frame
    [(("p", "1", "style.json"),
      JVal.obj [("version", JVal.num 8),
        ("sources", JVal.obj [("other", JVal.null)])])]
    [(("A", "1"), "u")] [(("B", "2"), ([] : FontStore))]
    "p" "1" "style.json" [("tiles", "A@1"), ("fonts", "B@2")] "http://h/"
    [("version", JVal.num 8), ("sources", JVal.obj [("other", JVal.null)])]
    [("other", JVal.null)] "A@1" "B@2" "A" "1" "B" "2"
    rfl rfl rfl rfl rfl rfl rfl rfl

/-! ## The font handler `get_fonts` -/

/-- `get_fonts`.  `fonts_dict` maps `(identifier, version)` to the
extracted glyph store (`FontStore`): the on-disk file
`font_path/font/range + ".pbf.gz"` is addressed by `(font, range)`, and a
missing file raises `FileNotFoundError`, modelled as a `none` lookup and
converted by the handler to 404.  `b''.join` over the generator reads the
file of every name in the comma-separated stack in order, stopping at the
first missing one, and concatenates the bytes. -/
def get_fonts (fonts_dict : List ((String × String) × FontStore))
    (identifier version stack range : String) : Resp :=
  match alookup (identifier, version) fonts_dict with
  | none => ⟨404, none, []⟩
  | some font_path =>
    if '.' ∈ stack.data ∨ '.' ∈ range.data then ⟨404, none, []⟩
    else
      let stack1 : String := ⟨(splitChar '.' stack.data).headD []⟩
      let fontNames := (splitChar ',' stack1.data).map fun l => (⟨l⟩ : String)
      match fontNames.mapM fun font => alookup (font, range) font_path with
      | none => ⟨404, none, []⟩
      | some blobs => ⟨200, some blobs.flatten, [("content-encoding", "gzip")]⟩

/-- C7: a `.` anywhere in the stack or the range string makes the font
handler answer 404, regardless of whether the referenced collection
exists. -/
theorem get_fonts_dot_rejected
    (fonts_dict : List ((String × String) × FontStore))
    (identifier version stack range : String)
    (h : '.' ∈ stack.data ∨ '.' ∈ range.data) :
    get_fonts fonts_dict identifier version stack range = ⟨404, none, []⟩ := by
  rcases hlk : alookup (identifier, version) fonts_dict with _ | fp
  · simp [get_fonts, hlk]
  · simp [get_fonts, hlk, h]

/-- Witness for C7: the stack `"a.b"` is rejected although the collection
exists. -/
theorem get_fonts_dot_rejected_witness :
    ('.' ∈ "a.b".data ∨ '.' ∈ "0-255".data) ∧
    get_fonts [(("fonts-gl", "2.0"), ([] : FontStore))]
      "fonts-gl" "2.0" "a.b" "0-255" = ⟨404, none, []⟩ :=
  ⟨Or.inl (by decide),
   get_fonts_dot_rejected [(("fonts-gl", "2.0"), ([] : FontStore))]
     "fonts-gl" "2.0" "a.b" "0-255" (Or.inl (by decide))⟩

/-- C5: evaluation exhibiting the violation.  With fonts `a` (bytes `[1]`)
and `b` (bytes `[2]`) present for range `0-255`, the stack `"a,b"` returns
the concatenation of both blobs; with `b` absent the same stack returns
404, while the stack `"a"` alone returns 200 with `[1]`.  So the names
after the first comma do change the response: line 189's
`stack.split('.')[0]` — a no-op, since the guard already rejected any `.` —
fails to drop them, contradicting the documented intent of using only the
first font. -/
theorem get_fonts_stack_uses_all_names :
    get_fonts [(("fonts-gl", "2.0"),
        ([(("a", "0-255"), [1]), (("b", "0-255"), [2])] : FontStore))]
      "fonts-gl" "2.0" "a,b" "0-255" =
      ⟨200, some [1, 2], [("content-encoding", "gzip")]⟩ ∧
    get_fonts [(("fonts-gl", "2.0"), ([(("a", "0-255"), [1])] : FontStore))]
      "fonts-gl" "2.0" "a,b" "0-255" = ⟨404, none, []⟩ ∧
    get_fonts [(("fonts-gl", "2.0"), ([(("a", "0-255"), [1])] : FontStore))]
      "fonts-gl" "2.0" "a" "0-255" =
      ⟨200, some [1], [("content-encoding", "gzip")]⟩ :=
  ⟨rfl, rfl, rfl⟩
